import Mathlib

/-!
Verification of the call-graph relationship extraction/aggregation pipeline
(`call_graph_processor.py`).  Python strings are modelled as `String`
(lists of unicode characters), files as lists of lines (without trailing
newline characters), Python `set`/`dict`-key collections as `Finset String`,
and the file system is abstracted: functions that read directories take the
relevant file contents as explicit arguments.
-/

namespace CallGraphProc

/-- Lexicographic comparison of character lists by code point; this is the
order Python's `sorted` uses on `str` values. -/
def lexLe : List Char → List Char → Bool
  | _ :: _, [] => false
  | [], _ => true
  | x :: xs, y :: ys => if x < y then true else if y < x then false else lexLe xs ys

/-- Python's `<=` on strings: code-point lexicographic order. -/
def pyLe (a b : String) : Prop := lexLe a.data b.data = true

instance : DecidableRel pyLe := fun a b => inferInstanceAs (Decidable (_ = true))

def lexLe_total : ∀ a b : List Char, lexLe a b = true ∨ lexLe b a = true := by
  intro a
  induction a with
  | nil => intro b; left; rfl
  | cons x xs ih =>
    intro b
    cases b with
    | nil => right; rfl
    | cons y ys =>
      rcases lt_trichotomy x y with h | h | h
      · left; simp [lexLe, h]
      · subst h
        rcases ih ys with h2 | h2
        · left; simp [lexLe, h2]
        · right; simp [lexLe, h2]
      · right; simp [lexLe, h]

def lexLe_trans : ∀ a b c : List Char,
    lexLe a b = true → lexLe b c = true → lexLe a c = true := by
  intro a
  induction a with
  | nil => intro b c _ _; rfl
  | cons x xs ih =>
    intro b c h1 h2
    cases b with
    | nil => simp [lexLe] at h1
    | cons y ys =>
      cases c with
      | nil => simp [lexLe] at h2
      | cons z zs =>
        rcases lt_trichotomy x y with hxy | hxy | hxy
        · rcases lt_trichotomy y z with hyz | hyz | hyz
          · simp [lexLe, lt_trans hxy hyz]
          · subst hyz; simp [lexLe, hxy]
          · simp [lexLe, asymm hyz, hyz] at h2
        · subst hxy
          simp only [lexLe, lt_irrefl, if_false] at h1
          rcases lt_trichotomy x z with hxz | hxz | hxz
          · simp [lexLe, hxz]
          · subst hxz
            simp only [lexLe, lt_irrefl, if_false] at h2 ⊢
            exact ih ys zs h1 h2
          · simp [lexLe, asymm hxz, hxz] at h2
        · simp [lexLe, asymm hxy, hxy] at h1

def lexLe_antisymm : ∀ a b : List Char,
    lexLe a b = true → lexLe b a = true → a = b := by
  intro a
  induction a with
  | nil =>
    intro b _ h2
    cases b with
    | nil => rfl
    | cons y ys => simp [lexLe] at h2
  | cons x xs ih =>
    intro b h1 h2
    cases b with
    | nil => simp [lexLe] at h1
    | cons y ys =>
      rcases lt_trichotomy x y with h | h | h
      · simp [lexLe, asymm h, h] at h2
      · subst h
        simp only [lexLe, lt_irrefl, if_false] at h1 h2
        rw [ih ys h1 h2]
      · simp [lexLe, asymm h, h] at h1

instance : IsTotal String pyLe := ⟨fun a b => lexLe_total a.data b.data⟩

instance : IsTrans String pyLe := ⟨fun a b c h1 h2 => lexLe_trans a.data b.data c.data h1 h2⟩

instance : IsAntisymm String pyLe := by
  refine ⟨fun a b h1 h2 => ?_⟩
  cases a with
  | mk da =>
    cases b with
    | mk db => exact congrArg String.mk (lexLe_antisymm da db h1 h2)

/-- Model of Python's `sorted` on a list of strings. -/
def pySorted (l : List String) : List String := List.insertionSort pyLe l

/-- Characters removed from both ends by `s.strip(c)` for a single strip
character `c`. -/
def stripChar (c : Char) (l : List Char) : List Char :=
  ((l.dropWhile (· == c)).reverse.dropWhile (· == c)).reverse

/-- Model of Python's `s.strip('"')`. -/
def stripQuotes (s : String) : String := ⟨stripChar '"' s.data⟩

/-- Model of Python's `s.strip()` (whitespace stripping on both ends). -/
def pyStrip (s : String) : String :=
  ⟨((s.data.dropWhile Char.isWhitespace).reverse.dropWhile Char.isWhitespace).reverse⟩

/-- Model of Python's substring containment `needle in haystack`. -/
def containsSub (needle : List Char) : List Char → Bool
  | [] => needle.isEmpty
  | c :: rest => needle.isPrefixOf (c :: rest) || containsSub needle rest

/-- Prefix of `l` strictly before the first occurrence of `sep`; the whole
list when `sep` does not occur.  This is Python's `l.split(sep)[0]`. -/
def splitBefore (sep : List Char) : List Char → List Char
  | [] => []
  | c :: rest => if sep.isPrefixOf (c :: rest) then [] else c :: splitBefore sep rest

/-- The `\l` line-break marker of the dot language (backslash then `l`). -/
def lMarker : List Char := ['\\', 'l']

/-- The `\n` line-break marker as it appears in dot labels (backslash then `n`). -/
def nMarker : List Char := ['\\', 'n']

/-- Line-break trimming performed on a label by `extract_function_name`
(`call_graph_processor.py` lines 79-82): split at `\l` first, then at `\n`,
keeping the first piece each time. -/
def trimLabel (l : List Char) : List Char :=
  let l1 := if containsSub lMarker l then splitBefore lMarker l else l
  if containsSub nMarker l1 then splitBefore nMarker l1 else l1

/-- Split `l` at the first occurrence of the character `ch`: returns the part
before and the part after that character, or `none` when `ch` is absent. -/
def breakAt (ch : Char) : List Char → Option (List Char × List Char)
  | [] => none
  | c :: rest =>
    if c = ch then some ([], rest)
    else (breakAt ch rest).map (fun p => (c :: p.1, p.2))

/-- Attempt to match the regex `<[^>]*>([^<]+)</[^>]*>` anchored at the start
of `l`, returning the text of the capture group on success.  Each regex piece
is forced (character classes cannot cross their delimiter), so the match is
deterministic. -/
def tagMatchAt (l : List Char) : Option (List Char) :=
  match l with
  | [] => none
  | c :: t =>
    if c = '<' then
      match breakAt '>' t with
      | none => none
      | some (_, u) =>
        match breakAt '<' u with
        | none => none
        | some (g, v) =>
          if g = [] then none
          else
            match v with
            | [] => none
            | c2 :: w =>
              if c2 = '/' then
                match breakAt '>' w with
                | none => none
                | some _ => some g
              else none
    else none

/-- Model of `re.search(r'<[^>]*>([^<]+)</[^>]*>', l)`: try the anchored match
at each position from the left, returning the first capture group found. -/
def findTagMatch : List Char → Option (List Char)
  | [] => none
  | c :: rest =>
    match tagMatchAt (c :: rest) with
    | some g => some g
    | none => findTagMatch rest

/-- Start character of the regex `[a-zA-Z_][a-zA-Z0-9_]*`. -/
def isIdentStart (c : Char) : Bool := c.isAlpha || c == '_'

/-- Continuation character of the regex `[a-zA-Z_][a-zA-Z0-9_]*`. -/
def isIdentChar (c : Char) : Bool := c.isAlphanum || c == '_'

/-- Model of `re.search(r'[a-zA-Z_][a-zA-Z0-9_]*', l)`: the leftmost maximal
identifier-shaped substring, if any. -/
def findIdent : List Char → Option (List Char)
  | [] => none
  | c :: rest =>
    if isIdentStart c then some (c :: rest.takeWhile isIdentChar)
    else findIdent rest

/-- Model of `os.path.basename`: the part of the path after the last slash. -/
def pyBasename (s : String) : String := ⟨(s.data.reverse.takeWhile (· ≠ '/')).reverse⟩

/-- Model of `os.path.dirname`: the part of the path before the last slash
(empty when the path has no slash). -/
def pyDirname (s : String) : String := ⟨((s.data.reverse.dropWhile (· ≠ '/')).drop 1).reverse⟩

/-- Model of Python's `s.lower()`. -/
def pyLower (s : String) : String := ⟨s.data.map Char.toLower⟩

/-- Model of Python's `line.startswith('#')`. -/
def pyStartsWithHash (s : String) : Bool :=
  match s.data with
  | c :: _ => c == '#'
  | [] => false

/-- A graph node: the pydot node name (identifier) and optional label, as
raw strings (quote stripping happens at use sites, as in the source). -/
structure Node where
  name : String
  label : Option String
deriving DecidableEq

/-- A directed edge between raw node identifiers. -/
structure Edge where
  source : String
  destination : String
deriving DecidableEq

/-- A loaded dot graph: nodes (with optional labels) and an ordered edge list. -/
structure Graph where
  nodes : List Node
  edges : List Edge
deriving DecidableEq

/-- Identifier fallback of `extract_function_name` (lines 94-102): the first
identifier-shaped substring of the (quote-stripped) node name, else the node
name itself. -/
def fallbackName (node_name : String) : String :=
  match findIdent node_name.data with
  | some m => ⟨m⟩
  | none => node_name

/-- Model of `extract_function_name` (`call_graph_processor.py` lines 56-105).
The label is used when `get_label()` is truthy and still truthy after
`strip('"')`; it is then line-break-trimmed, and if it contains both `<` and
`>` the first capture of `<[^>]*>([^<]+)</[^>]*>` is returned when the regex
matches.  Otherwise the trimmed label itself is returned.  Without a usable
label, the identifier fallback applies to the quote-stripped node name. -/
def extract_function_name (node : Node) : String :=
  let node_name := stripQuotes node.name
  let node_label : Option String :=
    match node.label with
    | some l => if l ≠ "" then some (stripQuotes l) else none
    | none => none
  match node_label with
  | some lbl =>
    if lbl ≠ "" then
      let trimmed := trimLabel lbl.data
      if trimmed.contains '<' && trimmed.contains '>' then
        match findTagMatch trimmed with
        | some g => ⟨g⟩
        | none => ⟨trimmed⟩
      else ⟨trimmed⟩
    else fallbackName node_name
  | none => fallbackName node_name

/-- Model of `create_node_to_function_mapping` (lines 128-143): association
list from quote-stripped node ids to extracted function names, in node order. -/
def create_node_to_function_mapping (g : Graph) : List (String × String) :=
  g.nodes.map (fun n => (stripQuotes n.name, extract_function_name n))

/-- Python `dict` lookup with default (`d.get(k, default)`); insertion with a
duplicate key overwrites, so the last binding wins. -/
def dictGet (d : List (String × String)) (k default : String) : String :=
  match d.reverse.find? (fun p => p.1 == k) with
  | some p => p.2
  | none => default

/-- Model of `extract_relationships_from_edges` (lines 145-176): one
relationship string per edge, in edge order, direction chosen by
`is_icgraph`.  The result is a list, not a set. -/
def extract_relationships_from_edges (g : Graph) (node_to_function : List (String × String))
    (is_icgraph : Bool) : List String :=
  g.edges.map (fun e =>
    let source_id := stripQuotes e.source
    let dest_id := stripQuotes e.destination
    let source_func := dictGet node_to_function source_id source_id
    let dest_func := dictGet node_to_function dest_id dest_id
    if is_icgraph then dest_func ++ " -> " ++ source_func
    else source_func ++ " -> " ++ dest_func)

/-- Format descriptor line chosen from the `is_icgraph` / `is_callee_caller`
boolean (lines 197-201 and 362-366). -/
def formatLine (inverted : Bool) : String :=
  if inverted then "# Format: callee -> caller" else "# Format: caller -> callee"

/-- Model of `write_relationships_to_file` (lines 178-204): the lines of the
per-file artifact.  The blank line comes from the `"\n\n"` ending the format
descriptor write; relationships are written sorted. -/
def write_relationships_to_file (relationships : List String) (dot_file_path : String)
    (is_icgraph : Bool) : List String :=
  ["# Function call relationships from " ++ pyBasename dot_file_path,
   "# Total relationships: " ++ toString relationships.length,
   formatLine is_icgraph, ""]
  ++ pySorted relationships

/-- Polarity decision of `generate_function_relationships_text` (line 229):
`"_icgraph" in dot_file_path`, a substring test on the whole path. -/
def isIcgraphPath (dot_file_path : String) : Bool :=
  containsSub "_icgraph".data dot_file_path.data

/-- Model of `generate_function_relationships_text` (lines 206-241), restricted
to the artifact content it produces (output-directory placement is file-system
glue).  A single `is_icgraph` decision feeds both the extraction direction and
the header descriptor. -/
def generate_function_relationships_text (g : Graph) (dot_file_path : String) : List String :=
  let node_to_function := create_node_to_function_mapping g
  let is_icgraph := isIcgraphPath dot_file_path
  let relationships := extract_relationships_from_edges g node_to_function is_icgraph
  write_relationships_to_file relationships dot_file_path is_icgraph

/-- Relationship lines recovered from an artifact's lines: the loop body shared
by `collect_unique_relationships` (lines 307-314) and
`read_relationships_from_file` (lines 390-395) — skip lines starting with `#`
and lines blank after stripping, keep the stripped text of the rest. -/
def parseRelLines (lines : List String) : List String :=
  lines.filterMap (fun line =>
    if pyStartsWithHash line || pyStrip line = "" then none
    else some (pyStrip line))

/-- Model of `collect_unique_relationships` (lines 296-316): union of the
parsed relationship lines of the given files into a set. -/
def collect_unique_relationships (rel_files : List (List String)) : Finset String :=
  rel_files.foldl (fun acc f => acc ∪ (parseRelLines f).toFinset) ∅

/-- Model of `get_output_dir_for_combined_file` (lines 318-330). -/
def get_output_dir_for_combined_file (directory : String) : String :=
  if pyBasename directory = "dot_files" then pyDirname directory else directory

/-- Model of `generate_combined_relationships_file` (lines 332-375), as the
lines of the combined artifact.  `rel_files` abstracts the contents of the
per-file artifacts located by `find_relationship_files`.  The header category
is derived from the directory's base name (line 345), not from a parameter. -/
def generate_combined_relationships_file (directory : String)
    (rel_files : List (List String)) : List String :=
  let is_callee_caller := containsSub "callee_caller".data (pyLower (pyBasename directory)).data
  let output_dir := get_output_dir_for_combined_file directory
  let all_relationships := collect_unique_relationships rel_files
  ["# Combined function call relationships from all dot files in " ++ pyBasename output_dir,
   "# Total unique relationships: " ++ toString all_relationships.card,
   formatLine is_callee_caller, ""]
  ++ all_relationships.sort pyLe

/-- Model of `read_relationships_from_file` (lines 377-396) on the contents of
an existing file: the parsed relationship lines as a set (the Python
`Dict[str, bool]` is used only for its keys). -/
def read_relationships_from_file (lines : List String) : Finset String :=
  (parseRelLines lines).toFinset

/-- Model of `collect_relationships_from_directory` (lines 398-416):
`files` abstracts the contents of the `*_relationships.txt` files (other than
`all_function_relationships.txt`) found under the directory. -/
def collect_relationships_from_directory (files : List (List String)) : Finset String :=
  files.foldl (fun acc f => acc ∪ read_relationships_from_file f) ∅

/-- Banner line of the master artifact headers: `# ` followed by 58 copies of
the equals sign, as written by `write_master_relationships_file`. -/
def bannerLine : String := "# " ++ ⟨List.replicate 58 '='⟩

/-- Model of `write_master_relationships_file` (lines 418-461): the lines of
the master artifact.  Blank lines reproduce the `"\n\n"` sequences of the
writes. -/
def write_master_relationships_file (base_directory_name : String)
    (callee_caller_relationships caller_callee_relationships : Finset String) : List String :=
  ["# MASTER FUNCTION RELATIONSHIP FILE",
   "# Generated on: " ++ base_directory_name, "",
   bannerLine,
   "# CALLEE -> CALLER RELATIONSHIPS",
   "# Total: " ++ toString callee_caller_relationships.card,
   bannerLine, ""]
  ++ callee_caller_relationships.sort pyLe
  ++ ["", "",
      bannerLine,
      "# CALLER -> CALLEE RELATIONSHIPS",
      "# Total: " ++ toString caller_callee_relationships.card,
      bannerLine, ""]
  ++ caller_callee_relationships.sort pyLe
  ++ ["", "",
      bannerLine,
      "# STATISTICS",
      bannerLine,
      "# Total callee->caller relationships: " ++ toString callee_caller_relationships.card,
      "# Total caller->callee relationships: " ++ toString caller_callee_relationships.card,
      "# Total relationships: "
        ++ toString (callee_caller_relationships.card + caller_callee_relationships.card)]

/-- Per-category source selection of `generate_master_relationships_file`
(lines 499-511): prefer the combined artifact when that file exists, else
union the individual relationship files found under the directory. -/
def master_category_set (combined : Option (List String))
    (indiv_files : List (List String)) : Finset String :=
  match combined with
  | some f => read_relationships_from_file f
  | none => collect_relationships_from_directory indiv_files

/-- Model of `generate_master_relationships_file` (lines 463-520).  The file
system is abstracted: the two booleans model `os.path.isdir` on the
`callee_caller_graph` / `caller_callee_graph` directories, the `Option`
arguments model `os.path.isfile` on each `all_function_relationships.txt`
(with its content when present), and the lists model the individual
relationship files under each directory.  `none` models the
no-category-directories failure (the function returns `None`). -/
def generate_master_relationships_file
    (callee_caller_exists caller_callee_exists : Bool)
    (cc_combined fw_combined : Option (List String))
    (cc_indiv fw_indiv : List (List String))
    (base_directory_name : String) : Option (List String) :=
  if callee_caller_exists = false ∧ caller_callee_exists = false then none
  else
    let callee_caller_relationships :=
      if callee_caller_exists then master_category_set cc_combined cc_indiv else ∅
    let caller_callee_relationships :=
      if caller_callee_exists then master_category_set fw_combined fw_indiv else ∅
    some (write_master_relationships_file base_directory_name
      callee_caller_relationships caller_callee_relationships)

/-- File writes performed by `generate_master_relationships_file`: the only
`open(..., 'w')` in it targets `master_function_relationships.txt`, and it is
reached only after the category-directory check succeeds. -/
def generate_master_writes
    (callee_caller_exists caller_callee_exists : Bool)
    (cc_combined fw_combined : Option (List String))
    (cc_indiv fw_indiv : List (List String))
    (base_directory_name : String) : List (String × List String) :=
  match generate_master_relationships_file callee_caller_exists caller_callee_exists
      cc_combined fw_combined cc_indiv fw_indiv base_directory_name with
  | none => []
  | some content => [("master_function_relationships.txt", content)]

/-- A relationship string survives the artifact write/read round trip exactly
when it is non-empty, does not begin with `#`, and is unchanged by whitespace
stripping. -/
def cleanRel (r : String) : Prop :=
  pyStartsWithHash r = false ∧ pyStrip r = r ∧ r ≠ ""

instance : DecidablePred cleanRel := fun r => by
  unfold cleanRel
  infer_instance

/-- Scenario graph: the single edge `a -> b` between unlabeled nodes `a`, `b`. -/
def gAB : Graph := ⟨[⟨"a", none⟩, ⟨"b", none⟩], [⟨"a", "b"⟩]⟩

/-- Counterexample graph: the edge `a -> b` stated twice. -/
def gDup : Graph := ⟨[⟨"a", none⟩, ⟨"b", none⟩], [⟨"a", "b"⟩, ⟨"a", "b"⟩]⟩

/-! Supporting lemmas about the string primitives. -/

theorem isPrefixOf_append_self : ∀ l t : List Char, l.isPrefixOf (l ++ t) = true := by
  intro l
  induction l with
  | nil => intro t; simp [List.isPrefixOf]
  | cons a as ih => intro t; simp only [List.cons_append, List.isPrefixOf]; simp [ih]

theorem splitBefore_of_not_contains (sep : List Char) :
    ∀ l, containsSub sep l = false → splitBefore sep l = l := by
  intro l
  induction l with
  | nil => intro _; rfl
  | cons c rest ih =>
    intro h
    simp only [containsSub, Bool.or_eq_false_iff] at h
    simp only [splitBefore, h.1, Bool.false_eq_true, if_false]
    exact congrArg (c :: ·) (ih h.2)

theorem ifSplit_eq (sep l : List Char) :
    (if containsSub sep l then splitBefore sep l else l) = splitBefore sep l := by
  cases h : containsSub sep l with
  | false => simp [h, splitBefore_of_not_contains sep l h]
  | true => simp [h]

theorem trimLabel_eq (l : List Char) :
    trimLabel l = splitBefore nMarker (splitBefore lMarker l) := by
  simp only [trimLabel, ifSplit_eq]

theorem splitBefore_sandwich (sep s : List Char) (hsep : sep ≠ []) :
    ∀ p, (∀ p1 p2, p2 ≠ [] → p = p1 ++ p2 → sep.isPrefixOf (p2 ++ (sep ++ s)) = false) →
      splitBefore sep (p ++ (sep ++ s)) = p := by
  intro p
  induction p with
  | nil =>
    intro _
    cases hs : sep with
    | nil => exact absurd hs hsep
    | cons a as =>
      subst hs
      have hpre : (a :: as).isPrefixOf (a :: (as ++ s)) = true := by
        have := isPrefixOf_append_self (a :: as) s
        simpa using this
      simp only [List.nil_append, List.cons_append, splitBefore, List.append_eq, hpre, if_true]
  | cons c p2 ih =>
    intro h
    have h0 : sep.isPrefixOf (c :: (p2 ++ (sep ++ s))) = false := by
      have := h [] (c :: p2) (by simp) rfl
      simpa using this
    simp only [List.cons_append, splitBefore, List.append_eq, h0, Bool.false_eq_true, if_false]
    refine congrArg (c :: ·) (ih ?_)
    intro q1 q2 hq hsplit
    exact h (c :: q1) q2 hq (by rw [hsplit]; rfl)

theorem splitBefore_append_skip (sep r : List Char) :
    ∀ p, (∀ p1 p2, p2 ≠ [] → p = p1 ++ p2 → sep.isPrefixOf (p2 ++ r) = false) →
      splitBefore sep (p ++ r) = p ++ splitBefore sep r := by
  intro p
  induction p with
  | nil => intro _; simp
  | cons c p2 ih =>
    intro h
    have h0 : sep.isPrefixOf (c :: (p2 ++ r)) = false := by
      have := h [] (c :: p2) (by simp) rfl
      simpa using this
    simp only [List.cons_append, splitBefore, List.append_eq, h0, Bool.false_eq_true, if_false]
    refine congrArg (c :: ·) (ih ?_)
    intro q1 q2 hq hsplit
    exact h (c :: q1) q2 hq (by rw [hsplit]; rfl)

theorem containsSub_append_right (sep p1 q : List Char)
    (h : containsSub sep q = true) : containsSub sep (p1 ++ q) = true := by
  induction p1 with
  | nil => simpa using h
  | cons c rest ih =>
    simp only [List.cons_append, containsSub, List.append_eq]
    rw [ih]
    simp

theorem containsSub_head (sep q : List Char) (h : sep.isPrefixOf q = true)
    (hq : q ≠ []) : containsSub sep q = true := by
  cases q with
  | nil => exact absurd rfl hq
  | cons c rest =>
    simp only [containsSub]
    rw [h]
    simp

theorem twoChar_no_touch (a b : Char) (p r : List Char)
    (hp : containsSub [a, b] p = false)
    (hr : ∀ x, r ≠ b :: x) :
    ∀ p1 p2, p2 ≠ [] → p = p1 ++ p2 → [a, b].isPrefixOf (p2 ++ r) = false := by
  intro p1 p2 hne hsplit
  cases p2 with
  | nil => exact absurd rfl hne
  | cons c t =>
    cases hval : [a, b].isPrefixOf ((c :: t) ++ r) with
    | false => rfl
    | true =>
      exfalso
      rw [List.cons_append] at hval
      simp only [List.isPrefixOf, Bool.and_eq_true, beq_iff_eq] at hval
      obtain ⟨hac, hrest⟩ := hval
      cases t with
      | nil =>
        cases hr2 : r with
        | nil => rw [hr2] at hrest; simp [List.isPrefixOf] at hrest
        | cons rh rt =>
          rw [hr2] at hrest
          simp only [List.nil_append, List.isPrefixOf, Bool.and_eq_true, beq_iff_eq] at hrest
          exact hr rt (by rw [hr2, hrest.1])
      | cons c2 t2 =>
        simp only [List.cons_append, List.isPrefixOf, Bool.and_eq_true, beq_iff_eq] at hrest
        have hsub : containsSub [a, b] p = true := by
          rw [hsplit]
          refine containsSub_append_right [a, b] p1 (c :: c2 :: t2) ?_
          refine containsSub_head [a, b] (c :: c2 :: t2) ?_ (by simp)
          simp [List.isPrefixOf, hac, hrest.1]
        rw [hsub] at hp
        exact Bool.true_eq_false.mp hp

theorem findIdent_ne_nil : ∀ l m, findIdent l = some m → m ≠ [] := by
  intro l
  induction l with
  | nil => intro m h; simp [findIdent] at h
  | cons c rest ih =>
    intro m h
    simp only [findIdent] at h
    cases hc : isIdentStart c with
    | true =>
      rw [hc] at h
      simp only [if_true] at h
      cases h
      simp
    | false =>
      rw [hc] at h
      simp only [Bool.false_eq_true, if_false] at h
      exact ih m h

theorem fallbackName_ne_empty (nn : String) (h : nn ≠ "") : fallbackName nn ≠ "" := by
  unfold fallbackName
  cases hf : findIdent nn.data with
  | none => exact h
  | some m =>
    have hm := findIdent_ne_nil nn.data m hf
    intro hcon
    have hdata : m = [] := by
      have := congrArg String.data hcon
      simpa using this
    exact hm hdata

theorem pyStartsWithHash_append (s t : String) (h : pyStartsWithHash s = true) :
    pyStartsWithHash (s ++ t) = true := by
  unfold pyStartsWithHash at h ⊢
  cases hs : s.data with
  | nil => rw [hs] at h; simp at h
  | cons c cs =>
    rw [hs] at h
    rw [String.data_append, hs, List.cons_append]
    exact h

theorem parseRelLines_append (l1 l2 : List String) :
    parseRelLines (l1 ++ l2) = parseRelLines l1 ++ parseRelLines l2 :=
  List.filterMap_append l1 l2 _

theorem parseRelLines_of_clean : ∀ l : List String, (∀ r ∈ l, cleanRel r) →
    parseRelLines l = l := by
  intro l
  induction l with
  | nil => intro _; rfl
  | cons r rest ih =>
    intro h
    have hr := h r (List.mem_cons_self r rest)
    have hrest := ih (fun x hx => h x (List.mem_cons_of_mem r hx))
    have hcond : (pyStartsWithHash r || decide (pyStrip r = "")) = false := by
      rw [hr.1, hr.2.1]
      simp [hr.2.2]
    simp only [parseRelLines] at hrest ⊢
    rw [List.filterMap_cons]
    simp only [hcond, Bool.false_eq_true, if_false]
    rw [hr.2.1, hrest]

theorem parse_write (rels : List String) (path : String) (icg : Bool)
    (h : ∀ r ∈ rels, cleanRel r) :
    parseRelLines (write_relationships_to_file rels path icg) = pySorted rels := by
  unfold write_relationships_to_file
  rw [parseRelLines_append]
  have e1 : pyStartsWithHash ("# Function call relationships from " ++ pyBasename path) = true :=
    pyStartsWithHash_append _ _ (by decide)
  have e2 : pyStartsWithHash ("# Total relationships: " ++ toString rels.length) = true :=
    pyStartsWithHash_append _ _ (by decide)
  have e3 : pyStartsWithHash (formatLine icg) = true := by cases icg <;> decide
  have h4 : parseRelLines ["# Function call relationships from " ++ pyBasename path,
      "# Total relationships: " ++ toString rels.length, formatLine icg, ""] = [] := by
    simp [parseRelLines, e1, e2, e3]
    intro h0
    decide
  have h5 : parseRelLines (pySorted rels) = pySorted rels :=
    parseRelLines_of_clean (pySorted rels)
      (fun r hr => h r ((List.perm_insertionSort pyLe rels).mem_iff.mp hr))
  rw [h4, h5]
  simp

/-! Claim theorems. -/

/-- C1 (counterexample): the per-file extraction result is NOT deduplicated.
On the graph with the edge `a -> b` stated twice, the per-file artifact
contains the relationship line `a -> b` twice and its header count is 2,
while there is only 1 distinct relationship string. -/
theorem c1_counterexample :
    generate_function_relationships_text gDup "f.dot" =
      ["# Function call relationships from f.dot", "# Total relationships: 2",
       "# Format: caller -> callee", "", "a -> b", "a -> b"] ∧
    (generate_function_relationships_text gDup "f.dot").count "a -> b" = 2 ∧
    (extract_relationships_from_edges gDup (create_node_to_function_mapping gDup)
      false).dedup.length = 1 :=
  ⟨by decide, by decide, by decide⟩

/-- C1 (amended): per-file extraction produces one relationship entry per edge
with no deduplication — the artifact's header count equals the number of edges
(entries), and the artifact body is a sorted permutation of the extracted
list, so duplicate resolved pairs are retained. -/
theorem c1_per_file_no_dedup (g : Graph) (path : String) :
    (extract_relationships_from_edges g (create_node_to_function_mapping g)
      (isIcgraphPath path)).length = g.edges.length ∧
    generate_function_relationships_text g path =
      ["# Function call relationships from " ++ pyBasename path,
       "# Total relationships: " ++ toString g.edges.length,
       formatLine (isIcgraphPath path), ""]
      ++ pySorted (extract_relationships_from_edges g (create_node_to_function_mapping g)
          (isIcgraphPath path)) ∧
    (pySorted (extract_relationships_from_edges g (create_node_to_function_mapping g)
        (isIcgraphPath path))).Perm
      (extract_relationships_from_edges g (create_node_to_function_mapping g)
        (isIcgraphPath path)) := by
  refine ⟨List.length_map g.edges _, ?_, List.perm_insertionSort pyLe _⟩
  simp only [generate_function_relationships_text, write_relationships_to_file,
    extract_relationships_from_edges, List.length_map]

/-- C2: for every edge, the Forward relationship string is
`resolved(source) ++ " -> " ++ resolved(destination)` and the Inverted
relationship string for the same edge is the reverse concatenation. -/
theorem c2_direction_per_edge (g : Graph) (m : List (String × String)) (i : Nat)
    (h : i < g.edges.length) :
    (extract_relationships_from_edges g m false)[i]? =
      some (dictGet m (stripQuotes (g.edges.get ⟨i, h⟩).source)
          (stripQuotes (g.edges.get ⟨i, h⟩).source)
        ++ " -> " ++ dictGet m (stripQuotes (g.edges.get ⟨i, h⟩).destination)
          (stripQuotes (g.edges.get ⟨i, h⟩).destination)) ∧
    (extract_relationships_from_edges g m true)[i]? =
      some (dictGet m (stripQuotes (g.edges.get ⟨i, h⟩).destination)
          (stripQuotes (g.edges.get ⟨i, h⟩).destination)
        ++ " -> " ++ dictGet m (stripQuotes (g.edges.get ⟨i, h⟩).source)
          (stripQuotes (g.edges.get ⟨i, h⟩).source)) := by
  constructor <;>
  · simp only [extract_relationships_from_edges, List.getElem?_map]
    rw [List.getElem?_eq_getElem h]
    simp [List.get_eq_getElem]

/-- C2 witness: on the one-edge graph `a -> b` with unlabeled nodes `a`, `b`,
Forward extraction yields `"a -> b"` and Inverted extraction yields
`"b -> a"`. -/
theorem c2_direction_witness :
    0 < gAB.edges.length ∧
    (extract_relationships_from_edges gAB (create_node_to_function_mapping gAB) false)[0]? =
      some "a -> b" ∧
    (extract_relationships_from_edges gAB (create_node_to_function_mapping gAB) true)[0]? =
      some "b -> a" := by
  refine ⟨by decide, ?_, ?_⟩
  · exact (c2_direction_per_edge gAB (create_node_to_function_mapping gAB) 0
      (by decide)).1.trans (by decide)
  · exact (c2_direction_per_edge gAB (create_node_to_function_mapping gAB) 0
      (by decide)).2.trans (by decide)

/-- C4 (counterexample): name resolution is not always non-empty.  The node
named `Node1` whose label is `\lxyz` resolves to the empty string — the label
trims to nothing at the line-break marker and the later identifier rules do
not fire, although identifier extraction on the name would have produced
`Node1`. -/
theorem c4_counterexample :
    extract_function_name ⟨"Node1", some "\\lxyz"⟩ = "" ∧
    fallbackName (stripQuotes "Node1") = "Node1" :=
  ⟨by decide, by decide⟩

/-- C4 (amended): name resolution is total, and it returns a non-empty string
whenever the node has no usable label (absent or empty after quote stripping)
and its quote-stripped identifier is non-empty; but a non-empty label that
line-break-trims to nothing is returned as the empty string. -/
theorem c4_resolution_total_amended (name : String) (lbl : Option String)
    (h : ∀ l, lbl = some l → stripQuotes l = "")
    (h2 : stripQuotes name ≠ "") :
    extract_function_name ⟨name, lbl⟩ ≠ "" := by
  cases lbl with
  | none => exact fallbackName_ne_empty _ h2
  | some l =>
    have hl := h l rfl
    by_cases he : l = ""
    · subst he
      show fallbackName (stripQuotes name) ≠ ""
      exact fallbackName_ne_empty _ h2
    · have e1 : extract_function_name ⟨name, some l⟩ = fallbackName (stripQuotes name) := by
        simp [extract_function_name, he, hl]
      rw [e1]
      exact fallbackName_ne_empty _ h2

/-- C4 witness: the amended totality statement applied to the unlabeled node
`Node7`. -/
theorem c4_resolution_witness :
    stripQuotes "Node7" ≠ "" ∧ extract_function_name ⟨"Node7", none⟩ ≠ "" :=
  ⟨by decide, c4_resolution_total_amended "Node7" none (fun _ hx => nomatch hx) (by decide)⟩

/-- C8: for every duplicate-free relationship list, the per-file artifact is a
header (source file name, total count equal to the number of distinct
relationship strings, and the descriptor `callee -> caller` for Inverted /
`caller -> callee` for Forward), then a blank line, then the relationships in
ascending lexicographic order, one per line. -/
theorem c8_sink_format (rels : List String) (path : String) (icg : Bool)
    (h : rels.Nodup) :
    write_relationships_to_file rels path icg =
      ["# Function call relationships from " ++ pyBasename path,
       "# Total relationships: " ++ toString rels.length,
       (if icg then "# Format: callee -> caller" else "# Format: caller -> callee"), ""]
      ++ pySorted rels ∧
    (pySorted rels).Sorted pyLe ∧
    (pySorted rels).Perm rels ∧
    rels.length = rels.toFinset.card :=
  ⟨rfl, List.sorted_insertionSort pyLe rels, List.perm_insertionSort pyLe rels,
    (List.toFinset_card_of_nodup h).symm⟩

/-- C8 witness: the sink statement applied to the duplicate-free list
`["b", "a"]`. -/
theorem c8_sink_witness :
    (["b", "a"] : List String).Nodup ∧ (pySorted ["b", "a"]).Perm ["b", "a"] := by
  have h : (["b", "a"] : List String).Nodup := by decide
  exact ⟨h, (c8_sink_format ["b", "a"] "f.dot" true h).2.2.1⟩

/-- C3: name resolution follows the ordered fallback chain.  A label is
truncated at the leftmost occurrence of either line-break marker (for any
marker-free prefix `p`, a label `p` followed by either marker and anything is
trimmed to `p`); label `foo\lbar` resolves to `foo`; label
`<tag>inner</tag>` resolves to the first inner text `inner`; the unlabeled
node with identifier `Node42_helper` resolves to its first identifier-shaped
substring `Node42_helper`. -/
theorem c3_name_resolution (p s : List Char)
    (hl : containsSub lMarker p = false) (hn : containsSub nMarker p = false) :
    trimLabel (p ++ (lMarker ++ s)) = p ∧ trimLabel (p ++ (nMarker ++ s)) = p ∧
    extract_function_name ⟨"n1", some "foo\\lbar"⟩ = "foo" ∧
    extract_function_name ⟨"n2", some "<tag>inner</tag>"⟩ = "inner" ∧
    extract_function_name ⟨"Node42_helper", none⟩ = "Node42_helper" := by
  refine ⟨?_, ?_, by decide, by decide, by decide⟩
  · have hr1 : ∀ x, (lMarker ++ s) ≠ 'l' :: x := by
      intro x hx
      rw [show lMarker ++ s = '\\' :: 'l' :: s from rfl] at hx
      injection hx with hx1 _
      exact absurd hx1 (by decide)
    have t1 : splitBefore lMarker (p ++ (lMarker ++ s)) = p :=
      splitBefore_sandwich lMarker s (by decide) p
        (twoChar_no_touch '\\' 'l' p (lMarker ++ s) hl hr1)
    rw [trimLabel_eq, t1]
    exact splitBefore_of_not_contains nMarker p hn
  · have hr2 : ∀ x, (nMarker ++ s) ≠ 'l' :: x := by
      intro x hx
      rw [show nMarker ++ s = '\\' :: 'n' :: s from rfl] at hx
      injection hx with hx1 _
      exact absurd hx1 (by decide)
    have t2 : splitBefore lMarker (p ++ (nMarker ++ s)) =
        p ++ splitBefore lMarker (nMarker ++ s) :=
      splitBefore_append_skip lMarker (nMarker ++ s) p
        (twoChar_no_touch '\\' 'l' p (nMarker ++ s) hl hr2)
    have hb1 : lMarker.isPrefixOf ('\\' :: 'n' :: s) = false := by
      have hln : (('l' : Char) == 'n') = false := by decide
      simp [lMarker, List.isPrefixOf, hln]
    have hb2 : lMarker.isPrefixOf ('n' :: s) = false := by
      have hbn : (('\\' : Char) == 'n') = false := by decide
      simp [lMarker, List.isPrefixOf, hbn]
    have t3 : splitBefore lMarker (nMarker ++ s) = '\\' :: 'n' :: splitBefore lMarker s := by
      rw [show nMarker ++ s = '\\' :: 'n' :: s from rfl]
      simp only [splitBefore, hb1, hb2, Bool.false_eq_true, if_false]
    have t4 : splitBefore nMarker (p ++ ('\\' :: 'n' :: splitBefore lMarker s)) = p := by
      have hr3 : ∀ x, ('\\' :: 'n' :: splitBefore lMarker s) ≠ 'n' :: x := by
        intro x hx
        injection hx with hx1 _
        exact absurd hx1 (by decide)
      exact splitBefore_sandwich nMarker (splitBefore lMarker s) (by decide) p
        (twoChar_no_touch '\\' 'n' p ('\\' :: 'n' :: splitBefore lMarker s) hn hr3)
    rw [trimLabel_eq, t2, t3, t4]

/-- C3 witness: the truncation statement applied to the marker-free prefix
`foo` and suffix `bar`. -/
theorem c3_name_resolution_witness :
    containsSub lMarker ['f', 'o', 'o'] = false ∧
    containsSub nMarker ['f', 'o', 'o'] = false ∧
    trimLabel (['f', 'o', 'o'] ++ (lMarker ++ ['b', 'a', 'r'])) = ['f', 'o', 'o'] :=
  ⟨by decide, by decide,
    (c3_name_resolution ['f', 'o', 'o'] ['b', 'a', 'r'] (by decide) (by decide)).1⟩

/-- C5 (counterexample): the combined artifact's relationship set is not
always the union of the per-file artifacts' relationship sets.  A per-file
artifact holding the relationship line `#x -> y` (producible from a node
labeled `#x`) is skipped as a comment when the aggregator reads it back, so
the combined set is empty while the per-file relationship set is not. -/
theorem c5_counterexample :
    collect_unique_relationships [write_relationships_to_file ["#x -> y"] "f.dot" false] = ∅ ∧
    (["#x -> y"] : List String).toFinset = {"#x -> y"} ∧
    ("#x -> y" : String) ∈ write_relationships_to_file ["#x -> y"] "f.dot" false :=
  ⟨by decide, by decide, by decide⟩

/-- C5 (amended): the combined relationship set equals the exact union of the
per-file relationship sets provided every relationship string is clean
(non-empty, not starting with `#`, and free of leading/trailing whitespace);
in particular two per-file artifacts each containing `x -> y` combine to a
single relationship counted once. -/
theorem c5_union_amended (files : List (List String × String × Bool))
    (h : ∀ f ∈ files, ∀ r ∈ f.1, cleanRel r) :
    collect_unique_relationships
        (files.map (fun f => write_relationships_to_file f.1 f.2.1 f.2.2)) =
      files.foldl (fun acc f => acc ∪ f.1.toFinset) ∅ ∧
    (collect_unique_relationships
        [write_relationships_to_file ["x -> y"] "a.dot" false,
         write_relationships_to_file ["x -> y"] "b.dot" false]).card = 1 := by
  have main : ∀ (fs : List (List String × String × Bool)) (acc : Finset String),
      (∀ f ∈ fs, ∀ r ∈ f.1, cleanRel r) →
      (fs.map (fun f => write_relationships_to_file f.1 f.2.1 f.2.2)).foldl
          (fun a f => a ∪ (parseRelLines f).toFinset) acc =
        fs.foldl (fun a f => a ∪ f.1.toFinset) acc := by
    intro fs
    induction fs with
    | nil => intro acc _; rfl
    | cons f rest ih =>
      intro acc hh
      simp only [List.map_cons, List.foldl_cons]
      rw [parse_write f.1 f.2.1 f.2.2 (hh f (List.mem_cons_self f rest))]
      rw [List.toFinset_eq_of_perm (pySorted f.1) f.1 (List.perm_insertionSort pyLe f.1)]
      exact ih (acc ∪ f.1.toFinset) (fun x hx => hh x (List.mem_cons_of_mem f hx))
  refine ⟨?_, by decide⟩
  simp only [collect_unique_relationships]
  exact main files ∅ h

/-- C5 witness: the amended union statement applied to one clean artifact. -/
theorem c5_union_witness :
    (∀ f ∈ ([(["x -> y"], "f.dot", false)] : List (List String × String × Bool)),
      ∀ r ∈ f.1, cleanRel r) ∧
    collect_unique_relationships
        (([(["x -> y"], "f.dot", false)] : List (List String × String × Bool)).map
          (fun f => write_relationships_to_file f.1 f.2.1 f.2.2)) =
      ([(["x -> y"], "f.dot", false)] : List (List String × String × Bool)).foldl
        (fun acc f => acc ∪ f.1.toFinset) ∅ := by
  have h : ∀ f ∈ ([(["x -> y"], "f.dot", false)] : List (List String × String × Bool)),
      ∀ r ∈ f.1, cleanRel r := by decide
  exact ⟨h, (c5_union_amended _ h).1⟩

theorem combined_format_line (directory : String) (fs : List (List String)) :
    (generate_combined_relationships_file directory fs)[2]? =
      some (formatLine (containsSub "callee_caller".data (pyLower (pyBasename directory)).data)) := by
  simp [generate_combined_relationships_file, List.cons_append,
    List.getElem?_cons_succ, List.getElem?_cons_zero]

/-- C6: master aggregation prefers a category's pre-existing combined artifact
and otherwise unions the individual per-file artifacts; an absent category
(here the callee-caller one) contributes an empty section whose count line is
`# Total: 0` and no relationship lines, and the statistics block's grand
total is the sum of the two section counts, so with only the forward category
present the grand total equals the forward count. -/
theorem c6_master_sections (bn : String) (ccf fwf : List String)
    (ccI fwI : List (List String)) (ccC fwC : Option (List String)) :
    generate_master_relationships_file true true (some ccf) (some fwf) ccI fwI bn =
      some (write_master_relationships_file bn (read_relationships_from_file ccf)
        (read_relationships_from_file fwf)) ∧
    generate_master_relationships_file true true none none ccI fwI bn =
      some (write_master_relationships_file bn (collect_relationships_from_directory ccI)
        (collect_relationships_from_directory fwI)) ∧
    generate_master_relationships_file false true ccC fwC ccI fwI bn =
      some (write_master_relationships_file bn ∅ (master_category_set fwC fwI)) ∧
    (∀ cc fw : Finset String, ∃ pre : List String,
      write_master_relationships_file bn cc fw =
        pre ++ ["# Total callee->caller relationships: " ++ toString cc.card,
                "# Total caller->callee relationships: " ++ toString fw.card,
                "# Total relationships: " ++ toString (cc.card + fw.card)]) ∧
    (∀ fw : Finset String,
      write_master_relationships_file bn ∅ fw =
        ["# MASTER FUNCTION RELATIONSHIP FILE",
         "# Generated on: " ++ bn, "",
         bannerLine,
         "# CALLEE -> CALLER RELATIONSHIPS",
         "# Total: 0",
         bannerLine, "",
         "", "",
         bannerLine,
         "# CALLER -> CALLEE RELATIONSHIPS",
         "# Total: " ++ toString fw.card,
         bannerLine, ""]
        ++ Finset.sort pyLe fw
        ++ ["", "",
            bannerLine,
            "# STATISTICS",
            bannerLine,
            "# Total callee->caller relationships: 0",
            "# Total caller->callee relationships: " ++ toString fw.card,
            "# Total relationships: " ++ toString fw.card]) := by
  have h0 : toString (0 : Nat) = "0" := rfl
  refine ⟨rfl, rfl, rfl, ?_, ?_⟩
  · intro cc fw
    refine ⟨["# MASTER FUNCTION RELATIONSHIP FILE",
        "# Generated on: " ++ bn, "",
        bannerLine,
        "# CALLEE -> CALLER RELATIONSHIPS",
        "# Total: " ++ toString cc.card,
        bannerLine, ""]
      ++ Finset.sort pyLe cc
      ++ ["", "",
          bannerLine,
          "# CALLER -> CALLEE RELATIONSHIPS",
          "# Total: " ++ toString fw.card,
          bannerLine, ""]
      ++ Finset.sort pyLe fw
      ++ ["", "",
          bannerLine,
          "# STATISTICS",
          bannerLine], ?_⟩
    simp [write_master_relationships_file, List.append_assoc]
  · intro fw
    simp [write_master_relationships_file, Finset.sort_empty, Finset.card_empty, h0,
      Nat.zero_add, List.append_assoc]

/-- C7: master aggregation fails (returns no artifact) exactly when neither
category directory exists; on failure it performs no file write at all, every
write it ever performs targets only the master artifact path (so per-file and
combined artifacts are untouched), and when at least one category directory
exists it produces a master artifact. -/
theorem c7_no_category_failure (ccE fwE : Bool) (ccC fwC : Option (List String))
    (ccI fwI : List (List String)) (bn : String) :
    (generate_master_relationships_file ccE fwE ccC fwC ccI fwI bn = none ↔
      (ccE = false ∧ fwE = false)) ∧
    (generate_master_writes ccE fwE ccC fwC ccI fwI bn = [] ↔
      (ccE = false ∧ fwE = false)) ∧
    (∀ w ∈ generate_master_writes ccE fwE ccC fwC ccI fwI bn,
      w.1 = "master_function_relationships.txt") ∧
    ((ccE = true ∨ fwE = true) →
      ∃ content, generate_master_relationships_file ccE fwE ccC fwC ccI fwI bn = some content) := by
  cases ccE <;> cases fwE <;>
    simp [generate_master_relationships_file, generate_master_writes]

/-- C7 witness: with both category directories absent the master step fails
producing nothing, and with only the forward directory present it produces a
master artifact. -/
theorem c7_failure_witness :
    generate_master_relationships_file false false none none [] [] "g" = none ∧
    (∃ content, generate_master_relationships_file false true none none [] [] "g" = some content) :=
  ⟨(c7_no_category_failure false false none none [] [] "g").1.mpr ⟨rfl, rfl⟩,
    (c7_no_category_failure false true none none [] [] "g").2.2.2 (Or.inr rfl)⟩

/-- C9 (counterexample): the combined artifact's header category is not
caller-supplied — with identical relationship files, two directories whose
base names differ get different format descriptor lines, so the category is
re-derived from the directory name. -/
theorem c9_counterexample :
    "# Format: callee -> caller" ∈ generate_combined_relationships_file "proj/callee_caller_graph" [] ∧
    "# Format: caller -> callee" ∈ generate_combined_relationships_file "proj/forward_graph" [] ∧
    (generate_combined_relationships_file "proj/callee_caller_graph" [])[2]? ≠
      (generate_combined_relationships_file "proj/forward_graph" [])[2]? :=
  ⟨by decide, by decide, by decide⟩

/-- C9 (amended): the combined artifact's header category is derived by the
aggregator itself from the directory's base name — the descriptor line is
`callee -> caller` exactly when the lowercased base name contains
`callee_caller`, else `caller -> callee` — and it depends only on that base
name, never on the relationship files supplied. -/
theorem c9_header_from_dirname (directory : String) (fs : List (List String)) :
    (generate_combined_relationships_file directory fs)[2]? =
      some (formatLine (containsSub "callee_caller".data (pyLower (pyBasename directory)).data)) ∧
    (∀ (d2 : String) (fs2 : List (List String)), pyBasename d2 = pyBasename directory →
      (generate_combined_relationships_file d2 fs2)[2]? =
        (generate_combined_relationships_file directory fs)[2]?) := by
  refine ⟨combined_format_line directory fs, ?_⟩
  intro d2 fs2 hb
  rw [combined_format_line, combined_format_line, hb]

/-- C9 witness: the header rule applied to two directories with the same base
name but different paths and different file lists. -/
theorem c9_header_witness :
    pyBasename "x/callee_caller_graph" = pyBasename "callee_caller_graph" ∧
    (generate_combined_relationships_file "x/callee_caller_graph" [["a -> b"]])[2]? =
      (generate_combined_relationships_file "callee_caller_graph" [])[2]? := by
  have hb : pyBasename "x/callee_caller_graph" = pyBasename "callee_caller_graph" := by decide
  exact ⟨hb, (c9_header_from_dirname "callee_caller_graph" []).2 "x/callee_caller_graph"
    [["a -> b"]] hb⟩

/-- C10: the per-file polarity is Inverted exactly when `_icgraph` occurs
anywhere in the full dot file path, and that single decision feeds both the
extraction direction and the header descriptor, so the descriptor always
agrees with the direction of every line; in particular a path whose directory
component alone contains `_icgraph` is processed as Inverted. -/
theorem c10_polarity_single_decision (g : Graph) (path : String) :
    generate_function_relationships_text g path =
      write_relationships_to_file
        (extract_relationships_from_edges g (create_node_to_function_mapping g)
          (isIcgraphPath path))
        path (isIcgraphPath path) ∧
    isIcgraphPath path = containsSub "_icgraph".data path.data ∧
    (generate_function_relationships_text g path)[2]? = some (formatLine (isIcgraphPath path)) ∧
    isIcgraphPath "dir_icgraph/plain.dot" = true ∧
    generate_function_relationships_text gAB "dir_icgraph/plain.dot" =
      ["# Function call relationships from plain.dot", "# Total relationships: 1",
       "# Format: callee -> caller", "", "b -> a"] := by
  refine ⟨rfl, rfl, ?_, by decide, by decide⟩
  simp [generate_function_relationships_text, write_relationships_to_file,
    List.cons_append, List.getElem?_cons_succ, List.getElem?_cons_zero]

end CallGraphProc
